import Mathlib

/-!
Verification of the fireflies-to-obsidian sync pipeline.

This file gives a shallow embedding, in Lean 4, of the core of the
fireflies-to-obsidian repository: the JSON-backed ledger of processed
meetings (`src/state_manager.py`), the readiness-gated detail fetch and the
paginated listing of the API client (`src/fireflies_client.py`), the
unique-filename note writer (`src/obsidian_sync.py`), and the orchestrator
(`src/main.py`'s `process_meetings`).  Python dictionaries are modelled by
association lists over an inductive value type, file-system and network
effects by explicit state passing and behaviour oracles, and exceptions by
sum types; each Lean definition mirrors one Python function, keeping its
name where Lean allows.
-/

/-! ## Ledger: `src/state_manager.py` (`StateManager`)

The persisted state file is `{processed_meetings: [...], last_sync: ...,
metadata: {...}}`.  We model the on-disk file explicitly: it can be absent,
unreadable (an `IOError` on `open`), corrupt (a `json.JSONDecodeError`), or
a valid JSON document.  `_load_state` always re-reads from disk and falls
back to the empty state in the first three cases, exactly as the Python
`try/except (json.JSONDecodeError, IOError)` does. -/

/-- The parsed content of `processed_meetings.json`. -/
structure StateData where
  processed_meetings : List String
  last_sync : Option String
  metadata : List (String × String)
deriving DecidableEq, Repr

/-- The on-disk condition of the ledger file. -/
inductive LedgerFile
  | absent
  | unreadable
  | corrupt
  | valid (data : StateData)
deriving DecidableEq, Repr

/-- The empty state that `_initialize_empty_state` writes and that
`_load_state` returns on a missing, unreadable or corrupt file. -/
def emptyStateData : StateData :=
  { processed_meetings := [], last_sync := none, metadata := [] }

/-- `StateManager._load_state`: always reads from disk; a missing file is
initialized empty, and `json.JSONDecodeError` / `IOError` degrade to the
empty state instead of raising. -/
def load_state : LedgerFile → StateData
  | .absent => emptyStateData
  | .unreadable => emptyStateData
  | .corrupt => emptyStateData
  | .valid d => d

/-- `StateManager.is_processed`: membership in the freshly loaded
`processed_meetings` list. -/
def is_processed (file : LedgerFile) (meeting_id : String) : Bool :=
  meeting_id ∈ (load_state file).processed_meetings

/-- `StateManager._save_state` at wall-clock time `now`: stamps
`last_sync` and writes the document to disk. -/
def save_state (now : String) (d : StateData) : LedgerFile :=
  .valid { d with last_sync := some now }

/-- `StateManager.mark_processed` at wall-clock time `now`: loads the
state, and only when the id is not yet present appends it and saves; when
the id is already present nothing is written to disk at all. -/
def mark_processed (now : String) (file : LedgerFile) (meeting_id : String) :
    LedgerFile :=
  let d := load_state file
  if meeting_id ∈ d.processed_meetings then file
  else save_state now { d with processed_meetings := d.processed_meetings ++ [meeting_id] }

/-! ## Python payload values and `FirefliesClient.is_summary_ready`

Meeting-detail payloads are dynamically typed Python dicts.  `PyVal`
models the values our code inspects: `None`, strings, booleans, numbers,
dicts (association lists, first binding wins as in a real dict) and
lists. -/

/-- A dynamically typed Python value. -/
inductive PyVal
  | none
  | str (s : String)
  | bool (b : Bool)
  | nat (n : Nat)
  | dict (entries : List (String × PyVal))
  | list (items : List PyVal)

/-- Python truthiness (`if x:`) for the values we model. -/
def pyTruthy : PyVal → Bool
  | .none => false
  | .str s => !(s = "")
  | .bool b => b
  | .nat n => !(n = 0)
  | .dict es => !es.isEmpty
  | .list xs => !xs.isEmpty

/-- `d.get(key, default)` on an association-list dict. -/
def dictGet (entries : List (String × PyVal)) (key : String) (default : PyVal) :
    PyVal :=
  match entries.lookup key with
  | some v => v
  | none => default

/-- `FirefliesClient.is_summary_ready`: `True` iff the payload is a
(non-falsy) dict whose `meeting_info` entry is a dict whose
`summary_status` entry is present, non-`None`, and equal to the exact
string `'processed'`.  Every other shape returns `False` without
raising. -/
def is_summary_ready (meeting_data : PyVal) : Bool :=
  match meeting_data with
  | .dict entries =>
    -- `if not meeting_data or not isinstance(meeting_data, dict)`
    if entries.isEmpty then false
    else
      match dictGet entries "meeting_info" (.dict []) with
      | .dict info =>
        match dictGet info "summary_status" .none with
        | .none => false  -- `if summary_status is None`
        | .str s => s = "processed"  -- `summary_status == 'processed'`
        | _ => false
      | _ => false  -- `not isinstance(meeting_info, dict)`
  | _ => false

/-! ## Readiness-gated fetch: `get_meeting` / `get_meeting_with_summary_check`

The network interaction of `get_transcript_details` is abstracted by a
`DetailFetch` describing what the provider did for the requested id:
returned a payload, reported the object as missing/falsy, or raised a
`FirefliesAPIError` with some error code. -/

/-- Outcome of the underlying detail request for one id. -/
inductive DetailFetch
  | ok (payload : PyVal)
  | notFound
  | apiError (code : String)

/-- `FirefliesClient.get_meeting`: returns the payload, `none` on
`object_not_found` (including a falsy `transcript` field, which
`get_transcript_details` converts to `object_not_found`), and re-raises
any other `FirefliesAPIError` (the `.error` case). -/
def get_meeting (fetch : DetailFetch) : Except String (Option PyVal) :=
  match fetch with
  | .ok payload => if pyTruthy payload then .ok (some payload) else .ok Option.none
  | .notFound => .ok Option.none
  | .apiError code =>
    if code = "object_not_found" then .ok Option.none else .error code

/-- `FirefliesClient.get_meeting_with_summary_check`: fetches the meeting,
returns it only when `is_summary_ready` holds, and converts every error
(`FirefliesAPIError` or any other exception) into `None`. -/
def get_meeting_with_summary_check (fetch : DetailFetch) : Option PyVal :=
  match get_meeting fetch with
  | .error _ => Option.none
  | .ok Option.none => Option.none
  | .ok (some payload) =>
    if is_summary_ready payload then some payload else Option.none

/-- The payload's readiness status field, read off the raw payload the way
the spec describes it: the `summary_status` entry of the `meeting_info`
dict entry, when both are present with those shapes. -/
def readinessStatus (payload : PyVal) : Option PyVal :=
  match payload with
  | .dict entries =>
    match entries.lookup "meeting_info" with
    | some (.dict info) => info.lookup "summary_status"
    | _ => Option.none
  | _ => Option.none

/-! ## Listing, pagination and the request retry loop

`get_recent_transcripts` issues one listing request: the provider is
modelled as the full, provider-ordered list of transcripts in the window,
and one request returns the slice at offset `skip` of at most
`min limit 50` items (the client clamps `limit` to the API maximum 50
before sending it). -/

/-- `FirefliesClient.get_recent_transcripts`: one bounded listing request. -/
def get_recent_transcripts {α : Type} (provider : List α) (limit skip : Nat) : List α :=
  (provider.drop skip).take (min limit 50)

/-- The `while True` pagination loop of `get_all_transcripts_since`,
with an explicit fuel standing in for the unbounded loop (the wrapper
passes `provider.length + 1`, which is always enough because every
non-final page consumes at least one item).  Returns the accumulated
transcripts and the number of listing requests issued. -/
def paginateLoop {α : Type} (provider : List α) (batch_size : Nat) :
    Nat → Nat → List α → Nat → List α × Nat
  | 0, _, acc, reqs => (acc, reqs)
  | fuel + 1, skip, acc, reqs =>
    let batch := get_recent_transcripts provider batch_size skip
    if batch.length = 0 then (acc, reqs + 1)  -- `if not batch: break`
    else if batch.length < batch_size then (acc ++ batch, reqs + 1)
    else paginateLoop provider batch_size fuel (skip + batch_size) (acc ++ batch) (reqs + 1)

/-- `FirefliesClient.get_all_transcripts_since`: clamps the batch size to
the API maximum 50 and paginates from offset 0 until an empty or short
page. -/
def get_all_transcripts_since {α : Type} (provider : List α) (batch_size : Nat) :
    List α × Nat :=
  paginateLoop provider (min batch_size 50) (provider.length + 1) 0 [] 0

/-- `FirefliesClient.get_recent_meetings` (the synchronous wrapper used by
the orchestrator's discovery step, default `limit = 100`): one single
listing request at offset 0, no pagination.  Returns the items and the
number of listing requests issued. -/
def get_recent_meetings {α : Type} (provider : List α) (limit : Nat := 100) :
    List α × Nat :=
  (get_recent_transcripts provider limit 0, 1)

/-! ### `FirefliesClient._make_request`

The transport is abstracted by a sequence of per-attempt responses.  A 200
response carries a GraphQL body that either has data or an error entry
with an error code. -/

/-- Body of an HTTP 200 response. -/
inductive GraphQLBody
  | success (data : String)
  | gqlError (code : String)
deriving DecidableEq, Repr

/-- What the transport did for one attempt. -/
inductive HttpResponse
  | ok (body : GraphQLBody)
  | rateLimited (retryAfter : Nat)
  | forbidden
  | otherStatus (status : Nat)
  | networkError
deriving DecidableEq, Repr

/-- Outcome of `_make_request`: returned data, or a raised
`FirefliesAPIError` with its optional `error_code` and message. -/
inductive RequestResult
  | success (data : String)
  | apiError (code : Option String) (msg : String)
deriving DecidableEq, Repr

/-- The `for attempt in range(max_retries)` loop of `_make_request`.
`remaining` is `max_retries - attempt`; the Python guard
`attempt < max_retries - 1` (retries remain) is `0 < remaining - 1`, i.e.
`0 < r` after peeling one iteration.  The second component is the number
of requests actually issued. -/
def make_request_loop (responses : Nat → HttpResponse) :
    Nat → Nat → RequestResult × Nat
  | 0, attempt => (.apiError Option.none "Max retries exceeded", attempt)
  | remaining + 1, attempt =>
    match responses attempt with
    | .ok (.success d) => (.success d, attempt + 1)
    | .ok (.gqlError code) =>
      -- a GraphQL-level error raises at once, whatever attempts remain
      (.apiError (some code) "GraphQL error", attempt + 1)
    | .rateLimited _ =>
      if 0 < remaining then make_request_loop responses remaining (attempt + 1)
      else (.apiError (some "too_many_requests")
        "Rate limit exceeded - max retries reached", attempt + 1)
    | .forbidden =>
      -- HTTP 403 raises immediately, with no check on remaining attempts
      (.apiError (some "forbidden") "API key invalid or expired", attempt + 1)
    | .otherStatus _ =>
      if 0 < remaining then make_request_loop responses remaining (attempt + 1)
      else (.apiError Option.none "API request failed", attempt + 1)
    | .networkError =>
      if 0 < remaining then make_request_loop responses remaining (attempt + 1)
      else (.apiError Option.none "Network error", attempt + 1)

/-- `FirefliesClient._make_request` with its default of 3 attempts. -/
def make_request (responses : Nat → HttpResponse) (max_retries : Nat := 3) :
    RequestResult × Nat :=
  make_request_loop responses max_retries 0

/-! ## Note writer: `src/obsidian_sync.py`

File names are modelled as strings `stem ++ suffix` (the Python code
splits `base_path` back into `Path.stem` and `Path.suffix`); the folder is
the list of `(name, content)` files it currently holds. -/

/-- The `f"{stem} ({version}){suffix}"` versioned file name. -/
def versionedName (stem suffix : String) (version : Nat) : String :=
  stem ++ " (" ++ toString version ++ ")" ++ suffix

/-- The `while True` probe of `get_unique_filename`: starting at
`version`, return the first version number whose name is unused.  The fuel
stands in for the unbounded Python loop. -/
def probeVersion (existing : List String) (stem suffix : String) : Nat → Nat → Nat
  | 0, version => version
  | fuel + 1, version =>
    if versionedName stem suffix version ∈ existing then
      probeVersion existing stem suffix fuel (version + 1)
    else version

/-- `ObsidianSync.get_unique_filename` over the names already in the
folder: the base name when unused, else the first unused versioned name
` (n)`, probing n = 1, 2, 3, …. -/
def get_unique_filename (existing : List String) (stem suffix : String) : String :=
  let base := stem ++ suffix
  if base ∈ existing then
    versionedName stem suffix (probeVersion existing stem suffix (existing.length + 1) 1)
  else base

/-- `ObsidianSync.save_meeting`: picks the unique name, writes the content
there, and returns the path actually used. -/
def save_meeting (folder : List (String × String)) (stem suffix content : String) :
    List (String × String) × String :=
  let unique := get_unique_filename (folder.map Prod.fst) stem suffix
  (folder ++ [(unique, content)], unique)

/-! ## Orchestrator: `main.process_meetings`

The orchestrator is driven by behaviour oracles for its collaborators:
`fetchB` is what `get_meeting_with_summary_check` does for one id (in the
composed program it never raises — it catches every exception — but
`main.py` is written to survive an escaping exception, which `.exc`
models), and `noteB` is what `obsidian_sync.create_meeting_note` does for
one meeting.  A run yields a trace of the externally visible per-meeting
events plus the aggregate counters. -/

/-- A listing entry; `sid` is the summary payload's `'id'` value. -/
structure Summary where
  sid : Option String
deriving DecidableEq, Repr

/-- A fetched meeting detail; `mid` is the detail payload's `'id'` value
(re-read by the persist loop with `meeting.get('id')`). -/
structure Meeting where
  mid : Option String
deriving DecidableEq, Repr

/-- Python truthiness of an optional string (`if meeting_id:`): `None` and
the empty string are falsy. -/
def truthyStr : Option String → Option String
  | some s => if s = "" then Option.none else some s
  | Option.none => Option.none

/-- `ObsidianSync.create_meeting_note`: format then save, with any
exception caught and turned into `None`.  `render m = none` models
`format_meeting` raising; `saver m content = none` models `save_meeting`
raising. -/
def create_meeting_note (render : Meeting → Option String)
    (saver : Meeting → String → Option String) (m : Meeting) : Option String :=
  match render m with
  | Option.none => Option.none
  | some content => saver m content

/-- Externally visible per-meeting actions of one orchestrator run. -/
inductive Event
  | fetchDetail (id : String)
  | noteAttempt (id : String)
  | noteWritten (id : String) (path : String)
  | marked (id : String)
deriving DecidableEq, Repr

/-- Behaviour of the gated detail fetch for one id, as seen by `main.py`:
a returned optional meeting, or an escaping exception. -/
inductive FetchOutcome
  | ret (m : Option Meeting)
  | exc

/-- Behaviour of the note-creation call for one meeting, as seen by
`main.py`: a returned optional path, or an escaping exception. -/
inductive NoteOutcome
  | ret (p : Option String)
  | exc

/-- Result of the fetch/filter phase. -/
structure DiscResult where
  meetings : List Meeting
  trace : List Event
  errors : Nat
  skipped : Nat

/-- Result of the render/persist phase. -/
structure PersistResult where
  trace : List Event
  processed : Nat
  errors : Nat
  ledger : LedgerFile

/-- Result of one whole `process_meetings` run. -/
structure RunResult where
  trace : List Event
  processed_count : Nat
  error_count : Nat
  skipped_count : Nat
  ledger : LedgerFile

/-- Test-mode fetch phase (`main.py` 55-76): each requested id is skipped
without any API call when the ledger already has it; otherwise it is
fetched through the summary check — an escaping exception counts as an
error, a `None` result as skipped-not-ready. -/
def discoverTest (ledger : LedgerFile) (fetchB : String → FetchOutcome) :
    List String → DiscResult
  | [] => { meetings := [], trace := [], errors := 0, skipped := 0 }
  | id :: rest =>
    if is_processed ledger id then discoverTest ledger fetchB rest
    else
      let r := discoverTest ledger fetchB rest
      match fetchB id with
      | .exc =>
        { r with trace := .fetchDetail id :: r.trace, errors := r.errors + 1 }
      | .ret Option.none =>
        { r with trace := .fetchDetail id :: r.trace, skipped := r.skipped + 1 }
      | .ret (some m) =>
        { r with meetings := m :: r.meetings, trace := .fetchDetail id :: r.trace }

/-- Normal-mode fetch phase (`main.py` 94-119): same as test mode but over
listing summaries, ignoring entries whose id is falsy. -/
def discoverNormal (ledger : LedgerFile) (fetchB : String → FetchOutcome) :
    List Summary → DiscResult
  | [] => { meetings := [], trace := [], errors := 0, skipped := 0 }
  | s :: rest =>
    match truthyStr s.sid with
    | Option.none => discoverNormal ledger fetchB rest
    | some i =>
      if is_processed ledger i then discoverNormal ledger fetchB rest
      else
        let r := discoverNormal ledger fetchB rest
        match fetchB i with
        | .exc =>
          { r with trace := .fetchDetail i :: r.trace, errors := r.errors + 1 }
        | .ret Option.none =>
          { r with trace := .fetchDetail i :: r.trace, skipped := r.skipped + 1 }
        | .ret (some m) =>
          { r with meetings := m :: r.meetings, trace := .fetchDetail i :: r.trace }

/-- Render/persist phase (`main.py` 128-149): meetings with a falsy id are
skipped; otherwise the note is created, and only a truthy returned path
leads to `mark_processed`; an exception escaping the step is counted as an
error and the loop continues. -/
def persistLoop (noteB : Meeting → NoteOutcome) (now : String) :
    List Meeting → LedgerFile → PersistResult
  | [], led => { trace := [], processed := 0, errors := 0, ledger := led }
  | m :: rest, led =>
    match truthyStr m.mid with
    | Option.none => persistLoop noteB now rest led
    | some i =>
      match noteB m with
      | .exc =>
        let r := persistLoop noteB now rest led
        { r with trace := .noteAttempt i :: r.trace, errors := r.errors + 1 }
      | .ret Option.none =>
        let r := persistLoop noteB now rest led
        { r with trace := .noteAttempt i :: r.trace }
      | .ret (some path) =>
        let r := persistLoop noteB now rest (mark_processed now led i)
        { r with
          trace := .noteAttempt i :: .noteWritten i path :: .marked i :: r.trace,
          processed := r.processed + 1 }

/-- Normal-mode discovery: `get_recent_meetings(since_date)` with its
default `limit = 100` — one single listing request, no pagination. -/
def discoverCandidates (provider : List Summary) : List Summary :=
  (get_recent_meetings provider 100).1

/-- `main.process_meetings`: mode selection (`if meeting_ids:` — `None` or
an empty list means normal mode), the fetch/filter phase over the initial
ledger, then the render/persist/mark phase. -/
def process_meetings (ledger0 : LedgerFile) (provider : List Summary)
    (fetchB : String → FetchOutcome) (noteB : Meeting → NoteOutcome)
    (meeting_ids : Option (List String)) (now : String) : RunResult :=
  let disc :=
    match meeting_ids with
    | some (id :: rest) => discoverTest ledger0 fetchB (id :: rest)
    | _ => discoverNormal ledger0 fetchB (discoverCandidates provider)
  let per := persistLoop noteB now disc.meetings ledger0
  { trace := disc.trace ++ per.trace
    processed_count := per.processed
    error_count := disc.errors + per.errors
    skipped_count := disc.skipped
    ledger := per.ledger }

/-- A trace is write-before-mark when every `marked id` entry is preceded
(strictly earlier in the trace) by a successful `noteWritten id path`
entry. -/
def marksAfterWrites (ts : List Event) : Prop :=
  ∀ i id, ts[i]? = some (Event.marked id) → ∃ p, Event.noteWritten id p ∈ ts.take i

/-! ### Concrete batch-isolation scenario (five meetings, the third fails)

`c6render` makes `format_meeting` raise exactly for meeting `"m3"`; the
composed `create_meeting_note` then swallows that exception and returns
`None`, which is what the real orchestrator observes.  `c6noteExc` is the
variant where the exception escapes the note-creation call itself, which
is the case `main.py`'s per-meeting `try/except` counts. -/

/-- Renderer that raises exactly on meeting `"m3"`. -/
def c6render (m : Meeting) : Option String :=
  if m.mid = some "m3" then Option.none else some "content"

/-- Note-creation behaviour composed from `create_meeting_note` with the
failing renderer: never raises, returns `None` for `"m3"`. -/
def c6noteB (m : Meeting) : NoteOutcome :=
  .ret (create_meeting_note c6render (fun _ _ => some "note-path") m)

/-- Note-creation behaviour whose exception escapes on `"m3"`. -/
def c6noteExc (m : Meeting) : NoteOutcome :=
  if m.mid = some "m3" then .exc else .ret (some "note-path")

/-- A provider that returns every requested meeting as summary-ready. -/
def c6fetch (i : String) : FetchOutcome :=
  .ret (some { mid := some i })

/-- The five candidate meeting ids. -/
def c6ids : List String := ["m1", "m2", "m3", "m4", "m5"]

/-- The run where the render failure is swallowed inside
`create_meeting_note`. -/
def c6runSwallowed : RunResult :=
  process_meetings (LedgerFile.valid emptyStateData) [] c6fetch c6noteB (some c6ids) "T"

/-- The run where the exception escapes the note-creation call. -/
def c6runEscaping : RunResult :=
  process_meetings (LedgerFile.valid emptyStateData) [] c6fetch c6noteExc (some c6ids) "T"

/-! ## Theorems about the readiness gate and the ledger -/

/-- A payload that passes `is_summary_ready` is a non-empty dict, hence
truthy in Python. -/
theorem is_summary_ready_truthy (p : PyVal) :
    is_summary_ready p = true → pyTruthy p = true := by
  cases p with
  | dict entries =>
    cases entries with
    | nil => intro h; simp [is_summary_ready] at h
    | cons e es => intro _; simp [pyTruthy]
  | none => intro h; simp [is_summary_ready] at h
  | str s => intro h; simp [is_summary_ready] at h
  | bool b => intro h; simp [is_summary_ready] at h
  | nat n => intro h; simp [is_summary_ready] at h
  | list xs => intro h; simp [is_summary_ready] at h

/-- `is_summary_ready` agrees with the direct reading of the payload's
readiness field: it holds exactly when `meeting_info.summary_status` is the
string `"processed"`. -/
theorem is_summary_ready_iff (p : PyVal) :
    is_summary_ready p = true ↔ readinessStatus p = some (PyVal.str "processed") := by
  cases p with
  | dict entries =>
    cases entries with
    | nil => simp [is_summary_ready, readinessStatus]
    | cons e es =>
      simp only [is_summary_ready, readinessStatus, dictGet, List.isEmpty_cons]
      cases h : (e :: es).lookup "meeting_info" with
      | none => simp [h]
      | some v =>
        cases v with
        | dict info =>
          cases h2 : info.lookup "summary_status" with
          | none => simp [h, h2]
          | some w => cases w <;> simp [h, h2]
        | none => simp [h]
        | str s => simp [h]
        | bool b => simp [h]
        | nat n => simp [h]
        | list xs => simp [h]
  | none => simp [is_summary_ready, readinessStatus]
  | str s => simp [is_summary_ready, readinessStatus]
  | bool b => simp [is_summary_ready, readinessStatus]
  | nat n => simp [is_summary_ready, readinessStatus]
  | list xs => simp [is_summary_ready, readinessStatus]

/-- C1: the readiness-gated fetch is fail-closed.  For every detail
payload, `get_meeting_with_summary_check` yields a present result iff the
payload's `meeting_info.summary_status` field is exactly the string
`"processed"` (in which case the result is the payload itself); payloads
where the field is missing, null, of the wrong shape, or any other value
give an absent result, and provider errors or missing meetings also give
an absent result — never an exception (the functions are total). -/
theorem c1_readiness_gate (payload : PyVal) :
    ((get_meeting_with_summary_check (DetailFetch.ok payload)).isSome = true ↔
      readinessStatus payload = some (PyVal.str "processed")) ∧
    (readinessStatus payload = some (PyVal.str "processed") →
      get_meeting_with_summary_check (DetailFetch.ok payload) = some payload) ∧
    (is_summary_ready payload = true ↔
      readinessStatus payload = some (PyVal.str "processed")) ∧
    (∀ code, get_meeting_with_summary_check (DetailFetch.apiError code) = Option.none) ∧
    get_meeting_with_summary_check DetailFetch.notFound = Option.none := by
  refine ⟨?_, ?_, is_summary_ready_iff payload, ?_, rfl⟩
  · rw [← is_summary_ready_iff]
    unfold get_meeting_with_summary_check get_meeting
    by_cases ht : pyTruthy payload
    · simp only [ht, if_true]
      by_cases hr : is_summary_ready payload
      · simp [hr]
      · simp [hr]
    · simp only [ht, Bool.false_eq_true, if_false]
      constructor
      · intro h; simp at h
      · intro h
        exact absurd (is_summary_ready_truthy payload h) (by simp [ht])
  · intro h
    rw [← is_summary_ready_iff] at h
    unfold get_meeting_with_summary_check get_meeting
    have ht := is_summary_ready_truthy payload h
    simp [ht, h]
  · intro code
    unfold get_meeting_with_summary_check get_meeting
    by_cases hc : code = "object_not_found" <;> simp [hc]

/-- C1 witness: a payload whose status is `"processed"` passes the gate
and is returned intact, and one whose status is `"processing"` is
absent. -/
theorem c1_readiness_gate_witness :
    get_meeting_with_summary_check
        (DetailFetch.ok (PyVal.dict
          [("id", PyVal.str "abc123"),
           ("meeting_info", PyVal.dict [("summary_status", PyVal.str "processed")])])) =
      some (PyVal.dict
          [("id", PyVal.str "abc123"),
           ("meeting_info", PyVal.dict [("summary_status", PyVal.str "processed")])]) ∧
    (get_meeting_with_summary_check
        (DetailFetch.ok (PyVal.dict
          [("id", PyVal.str "abc123"),
           ("meeting_info", PyVal.dict [("summary_status", PyVal.str "processing")])]))).isSome
      = false := by
  constructor
  · exact (c1_readiness_gate _).2.1 (by rfl)
  · have h := (c1_readiness_gate (PyVal.dict
      [("id", PyVal.str "abc123"),
       ("meeting_info", PyVal.dict [("summary_status", PyVal.str "processing")])])).1
    rw [Bool.eq_false_iff]
    intro hc
    have := h.mp hc
    simp [readinessStatus, List.lookup] at this

/-- C7: an unreadable or corrupt ledger file degrades to the empty state:
loading returns the empty state instead of raising (the model is a total
function), so `is_processed` is `false` for every id. -/
theorem c7_corrupt_ledger_fail_open (meeting_id : String) :
    is_processed LedgerFile.corrupt meeting_id = false ∧
    is_processed LedgerFile.unreadable meeting_id = false ∧
    load_state LedgerFile.corrupt = emptyStateData ∧
    load_state LedgerFile.unreadable = emptyStateData := by
  refine ⟨?_, ?_, rfl, rfl⟩ <;> simp [is_processed, load_state, emptyStateData]

/-- C3 counterexample: with a fresh ledger, `mark_processed "T1"` then
`mark_processed "T2"` for the same id leaves the file exactly as after the
first call — the second call writes nothing and `last_sync` still holds
`"T1"`, refuting "each mark_processed call persists synchronously before
returning and updates the last-sync timestamp". -/
theorem c3_counterexample :
    mark_processed "T2" (mark_processed "T1" (LedgerFile.valid emptyStateData) "abc123") "abc123"
        = mark_processed "T1" (LedgerFile.valid emptyStateData) "abc123" ∧
    (load_state (mark_processed "T2"
        (mark_processed "T1" (LedgerFile.valid emptyStateData) "abc123") "abc123")).last_sync
        = some "T1" ∧
    ¬ (load_state (mark_processed "T2"
        (mark_processed "T1" (LedgerFile.valid emptyStateData) "abc123") "abc123")).last_sync
        = some "T2" := by
  refine ⟨rfl, rfl, by decide⟩

/-- `mark_processed` is the identity when the id is already present. -/
theorem mark_processed_mem (now : String) (file : LedgerFile) (meeting_id : String)
    (h : meeting_id ∈ (load_state file).processed_meetings) :
    mark_processed now file meeting_id = file := by
  simp [mark_processed, h]

/-- `mark_processed` appends and stamps `last_sync` when the id is new. -/
theorem mark_processed_not_mem (now : String) (file : LedgerFile) (meeting_id : String)
    (h : meeting_id ∉ (load_state file).processed_meetings) :
    mark_processed now file meeting_id =
      LedgerFile.valid
        { processed_meetings := (load_state file).processed_meetings ++ [meeting_id],
          last_sync := some now,
          metadata := (load_state file).metadata } := by
  simp [mark_processed, h, save_state]

/-- C3 (amended): `mark_processed` is idempotent — from a state holding at
most one occurrence of the id, two calls leave exactly one occurrence, and
`is_processed` is true after either call.  A call that adds a new id
persists the updated document (with the fresh last-sync stamp)
synchronously; a call for an already-present id is a no-op that leaves the
persisted file, including its last-sync timestamp, unchanged. -/
theorem c3_mark_processed_idempotent (file : LedgerFile) (meeting_id now1 now2 : String) :
    ((load_state file).processed_meetings.count meeting_id ≤ 1 →
      (load_state (mark_processed now2 (mark_processed now1 file meeting_id)
        meeting_id)).processed_meetings.count meeting_id = 1) ∧
    is_processed (mark_processed now1 file meeting_id) meeting_id = true ∧
    is_processed (mark_processed now2 (mark_processed now1 file meeting_id)
      meeting_id) meeting_id = true ∧
    (meeting_id ∉ (load_state file).processed_meetings →
      mark_processed now1 file meeting_id =
        LedgerFile.valid
          { processed_meetings := (load_state file).processed_meetings ++ [meeting_id],
            last_sync := some now1,
            metadata := (load_state file).metadata }) ∧
    (meeting_id ∈ (load_state file).processed_meetings →
      mark_processed now1 file meeting_id = file) := by
  by_cases h : meeting_id ∈ (load_state file).processed_meetings
  · have h1 := mark_processed_mem now1 file meeting_id h
    have h2 := mark_processed_mem now2 file meeting_id h
    refine ⟨?_, ?_, ?_, fun hn => absurd h hn, fun _ => h1⟩
    · intro hc
      rw [h1, h2]
      have hpos := List.count_pos_iff.mpr h
      omega
    · rw [h1]; simpa [is_processed] using h
    · rw [h1, h2]; simpa [is_processed] using h
  · have h1 := mark_processed_not_mem now1 file meeting_id h
    have hmem : meeting_id ∈
        (load_state (mark_processed now1 file meeting_id)).processed_meetings := by
      rw [h1]; simp [load_state]
    have h2 := mark_processed_mem now2 (mark_processed now1 file meeting_id) meeting_id hmem
    refine ⟨?_, ?_, ?_, fun _ => h1, fun hin => absurd hin h⟩
    · intro _
      rw [h2, h1]
      have hl : ∀ d, load_state (LedgerFile.valid d) = d := fun _ => rfl
      rw [hl]
      simp [List.count_append, List.count_eq_zero.mpr h]
    · simpa [is_processed] using hmem
    · rw [h2]; simpa [is_processed] using hmem

/-- C3 witness: at concrete inputs — a fresh ledger for the add path and a
ledger already holding the id for the no-op path — the amended facts hold
with every hypothesis discharged. -/
theorem c3_mark_processed_idempotent_witness :
    (load_state (mark_processed "T2"
        (mark_processed "T1" (LedgerFile.valid emptyStateData) "m1") "m1")).processed_meetings.count "m1" = 1 ∧
    mark_processed "T1" (LedgerFile.valid emptyStateData) "m1" =
      LedgerFile.valid { processed_meetings := ["m1"], last_sync := some "T1", metadata := [] } ∧
    mark_processed "T1"
        (LedgerFile.valid { processed_meetings := ["m1"], last_sync := none, metadata := [] }) "m1" =
      LedgerFile.valid { processed_meetings := ["m1"], last_sync := none, metadata := [] } := by
  refine ⟨(c3_mark_processed_idempotent (LedgerFile.valid emptyStateData) "m1" "T1" "T2").1 (by decide),
    ?_, (c3_mark_processed_idempotent
      (LedgerFile.valid { processed_meetings := ["m1"], last_sync := none, metadata := [] })
      "m1" "T1" "T2").2.2.2.2 (by decide)⟩
  have h := (c3_mark_processed_idempotent (LedgerFile.valid emptyStateData) "m1" "T1" "T2").2.2.2.1
    (by decide)
  simpa [load_state, emptyStateData] using h

/-! ## Theorems about pagination and the retry loop -/

/-- The pagination loop with sufficient fuel collects every remaining item
in provider order and issues `remaining / batch_size + 1` requests. -/
theorem paginateLoop_spec {α : Type} (provider : List α) (bs : Nat)
    (hbs : 0 < bs) (hbs50 : bs ≤ 50) :
    ∀ fuel skip acc reqs, provider.length - skip < fuel * bs →
      paginateLoop provider bs fuel skip acc reqs =
        (acc ++ provider.drop skip, reqs + (provider.length - skip) / bs + 1) := by
  intro fuel
  induction fuel with
  | zero => intro skip acc reqs h; omega
  | succ f ih =>
    intro skip acc reqs h
    have hmin : min bs 50 = bs := Nat.min_eq_left hbs50
    have hlen : (get_recent_transcripts provider bs skip).length
        = min bs (provider.length - skip) := by
      simp [get_recent_transcripts, hmin]
    rcases Nat.lt_or_ge (provider.length - skip) bs with hlt | hge
    · rcases Nat.eq_zero_or_pos (provider.length - skip) with h0 | hpos
      · have hb0 : (get_recent_transcripts provider bs skip).length = 0 := by
          rw [hlen, h0]; omega
        have hdrop : provider.drop skip = [] := by
          apply List.drop_eq_nil_of_le; omega
        simp [paginateLoop, hb0, hdrop, h0]
      · have hb : (get_recent_transcripts provider bs skip).length
            = provider.length - skip := by rw [hlen]; omega
        have htake : get_recent_transcripts provider bs skip = provider.drop skip := by
          unfold get_recent_transcripts
          rw [hmin]
          apply List.take_of_length_le
          simp; omega
        have hdiv : (provider.length - skip) / bs = 0 := Nat.div_eq_of_lt hlt
        simp only [paginateLoop, hb, hdiv]
        rw [if_neg (by omega), if_pos hlt, htake]
    · have hb : (get_recent_transcripts provider bs skip).length = bs := by
        rw [hlen]; omega
      have hrec : provider.length - (skip + bs) < f * bs := by
        have hmul : provider.length - skip < f * bs + bs := by
          calc provider.length - skip < (f + 1) * bs := h
            _ = f * bs + bs := by rw [Nat.succ_mul]
        omega
      simp only [paginateLoop, hb]
      rw [if_neg (by omega), if_neg (by omega), ih (skip + bs) _ _ hrec]
      simp only [Prod.mk.injEq]
      constructor
      · rw [List.append_assoc]
        congr 1
        simp only [get_recent_transcripts, hmin]
        exact List.drop_take_append_drop provider skip bs
      · have hsub : provider.length - (skip + bs) = provider.length - skip - bs := by omega
        have hdd : (provider.length - skip) / bs = (provider.length - skip - bs) / bs + 1 :=
          Nat.div_eq_sub_div hbs hge
        rw [hsub, hdd]
        ring

/-- `get_all_transcripts_since` returns the whole provider-ordered list
and issues `provider.length / batch + 1` requests (for the clamped batch
size). -/
theorem get_all_transcripts_since_spec {α : Type} (provider : List α) (bs : Nat)
    (h1 : 1 ≤ bs) :
    get_all_transcripts_since provider bs
      = (provider, provider.length / (min bs 50) + 1) := by
  have hbs : 0 < min bs 50 := by omega
  have hb50 : min bs 50 ≤ 50 := Nat.min_le_right bs 50
  unfold get_all_transcripts_since
  rw [paginateLoop_spec provider (min bs 50) hbs hb50 (provider.length + 1) 0 [] 0 ?_]
  · simp
  · have : provider.length + 1 ≤ (provider.length + 1) * min bs 50 :=
      Nat.le_mul_of_pos_right _ hbs
    omega

/-- C8: with page size 50 over a window holding 113 transcripts, the pages
have sizes [50, 50, 13]; `get_all_transcripts_since` returns exactly the
113 items in provider order and issues exactly 3 requests — none after the
short third page. -/
theorem c8_pagination_terminates {α : Type} (provider : List α)
    (h : provider.length = 113) :
    get_all_transcripts_since provider 50 = (provider, 3) ∧
    (get_recent_transcripts provider 50 0).length = 50 ∧
    (get_recent_transcripts provider 50 50).length = 50 ∧
    (get_recent_transcripts provider 50 100).length = 13 := by
  refine ⟨?_, ?_, ?_, ?_⟩
  · rw [get_all_transcripts_since_spec provider 50 (by norm_num), h]
    norm_num
  · simp [get_recent_transcripts, h]
  · simp [get_recent_transcripts, h]
  · simp [get_recent_transcripts, h]

/-- C8 witness: the concrete 113-item provider `List.range 113`. -/
theorem c8_pagination_terminates_witness :
    get_all_transcripts_since (List.range 113) 50 = (List.range 113, 3) ∧
    (get_recent_transcripts (List.range 113) 50 100).length = 13 := by
  have h := c8_pagination_terminates (List.range 113) (by simp)
  exact ⟨h.1, h.2.2.2⟩

/-- C9: an HTTP 403 (invalid/expired credentials) is never retried: at any
point of the retry loop, with any number of attempts remaining, a 403
response makes `_make_request` raise the typed `forbidden` error at once,
consuming exactly that one request; in particular a 403 on the very first
response of a fresh call raises after exactly one request. -/
theorem c9_forbidden_never_retried (responses : Nat → HttpResponse)
    (remaining attempt : Nat) (h : responses attempt = HttpResponse.forbidden)
    (hr : 0 < remaining) :
    make_request_loop responses remaining attempt =
      (RequestResult.apiError (some "forbidden") "API key invalid or expired",
        attempt + 1) ∧
    (responses 0 = HttpResponse.forbidden → ∀ max_retries, 0 < max_retries →
      make_request responses max_retries =
        (RequestResult.apiError (some "forbidden") "API key invalid or expired", 1)) := by
  constructor
  · obtain ⟨r, rfl⟩ : ∃ r, remaining = r + 1 := ⟨remaining - 1, by omega⟩
    simp [make_request_loop, h]
  · intro h0 max_retries hm
    obtain ⟨r, rfl⟩ : ∃ r, max_retries = r + 1 := ⟨max_retries - 1, by omega⟩
    simp [make_request, make_request_loop, h0]

/-- C9 witness: a transport that answers 403 on every attempt, called with
the default 3 retries, raises `forbidden` after exactly one request. -/
theorem c9_forbidden_never_retried_witness :
    make_request (fun _ => HttpResponse.forbidden) 3 =
      (RequestResult.apiError (some "forbidden") "API key invalid or expired", 1) := by
  exact (c9_forbidden_never_retried (fun _ => HttpResponse.forbidden) 3 0 rfl
    (by norm_num)).2 rfl 3 (by norm_num)

/-! ## Theorems about the note writer -/

/-- The version probe returns the first free version at or after `start`,
whenever some free version lies within the fuel's reach. -/
theorem probeVersion_spec (existing : List String) (stem suffix : String) :
    ∀ fuel start,
      (∃ v, start ≤ v ∧ v ≤ start + fuel ∧ versionedName stem suffix v ∉ existing) →
      start ≤ probeVersion existing stem suffix fuel start ∧
      versionedName stem suffix (probeVersion existing stem suffix fuel start) ∉ existing ∧
      ∀ w, start ≤ w → w < probeVersion existing stem suffix fuel start →
        versionedName stem suffix w ∈ existing := by
  intro fuel
  induction fuel with
  | zero =>
    intro start h
    obtain ⟨v, h1, h2, h3⟩ := h
    have hv : v = start := by omega
    subst hv
    exact ⟨Nat.le_refl _, h3, fun w hw1 hw2 => absurd (by simpa [probeVersion] using hw2) (by omega)⟩
  | succ f ih =>
    intro start h
    by_cases hb : versionedName stem suffix start ∈ existing
    · have hstep : probeVersion existing stem suffix (f + 1) start
          = probeVersion existing stem suffix f (start + 1) := by
        simp [probeVersion, hb]
      obtain ⟨v, h1, h2, h3⟩ := h
      have hv : start + 1 ≤ v := by
        rcases Nat.eq_or_lt_of_le h1 with he | hl
        · exact absurd hb (he ▸ h3)
        · omega
      have hrec := ih (start + 1) ⟨v, hv, by omega, h3⟩
      rw [hstep]
      refine ⟨by omega, hrec.2.1, fun w hw1 hw2 => ?_⟩
      rcases Nat.eq_or_lt_of_le hw1 with he | hl
      · rw [← he]; exact hb
      · exact hrec.2.2 w (by omega) hw2
    · have hstep : probeVersion existing stem suffix (f + 1) start = start := by
        simp [probeVersion, hb]
      rw [hstep]
      exact ⟨Nat.le_refl _, hb, fun w hw1 hw2 => by omega⟩

/-- C5: `get_unique_filename` / `save_meeting` never overwrite.  When the
base name is unused it is used as-is; when it collides, the writer uses
the versioned name ` (n)` with the least unused n ≥ 1 (so earlier gaps
are found first); and `save_meeting` writes the chosen name — which is not
among the existing files — and returns exactly that path.  The hypothesis
asks for some unused versioned name within the probe's fuel, which always
holds for a real (finite, duplicate-free) folder listing. -/
theorem c5_no_overwrite (existing : List String) (stem suffix : String)
    (hfree : ∃ v, 1 ≤ v ∧ v ≤ existing.length + 1 ∧
      versionedName stem suffix v ∉ existing) :
    (stem ++ suffix ∉ existing →
      get_unique_filename existing stem suffix = stem ++ suffix) ∧
    get_unique_filename existing stem suffix ∉ existing ∧
    (stem ++ suffix ∈ existing →
      ∃ v, 1 ≤ v ∧
        get_unique_filename existing stem suffix = versionedName stem suffix v ∧
        versionedName stem suffix v ∉ existing ∧
        ∀ w, 1 ≤ w → w < v → versionedName stem suffix w ∈ existing) ∧
    (∀ (folder : List (String × String)) (content : String),
      folder.map Prod.fst = existing →
      save_meeting folder stem suffix content =
        (folder ++ [(get_unique_filename existing stem suffix, content)],
          get_unique_filename existing stem suffix)) := by
  by_cases hbase : stem ++ suffix ∈ existing
  · have hprobe := probeVersion_spec existing stem suffix (existing.length + 1) 1
      (by obtain ⟨v, h1, h2, h3⟩ := hfree; exact ⟨v, h1, by omega, h3⟩)
    have hval : get_unique_filename existing stem suffix
        = versionedName stem suffix
            (probeVersion existing stem suffix (existing.length + 1) 1) := by
      simp [get_unique_filename, hbase]
    refine ⟨fun hn => absurd hbase hn, ?_, fun _ => ?_, fun folder content hmap => ?_⟩
    · rw [hval]; exact hprobe.2.1
    · exact ⟨probeVersion existing stem suffix (existing.length + 1) 1,
        hprobe.1, hval, hprobe.2.1, hprobe.2.2⟩
    · simp [save_meeting, hmap]
  · have hval : get_unique_filename existing stem suffix = stem ++ suffix := by
      simp [get_unique_filename, hbase]
    refine ⟨fun _ => hval, ?_, fun hin => absurd hin hbase, fun folder content hmap => ?_⟩
    · rw [hval]; exact hbase
    · simp [save_meeting, hmap]

/-- C5 witness: with only the base, ` (2)` and ` (4)` existing, the next
allocated name is ` (1)`, it is not among the existing files, and
`save_meeting` writes and returns exactly that path. -/
theorem c5_no_overwrite_witness :
    get_unique_filename
        ["2024-06-13-10-00-Standup.md", "2024-06-13-10-00-Standup (2).md",
          "2024-06-13-10-00-Standup (4).md"] "2024-06-13-10-00-Standup" ".md"
      = "2024-06-13-10-00-Standup (1).md" ∧
    get_unique_filename
        ["2024-06-13-10-00-Standup.md", "2024-06-13-10-00-Standup (2).md",
          "2024-06-13-10-00-Standup (4).md"] "2024-06-13-10-00-Standup" ".md"
      ∉ ["2024-06-13-10-00-Standup.md", "2024-06-13-10-00-Standup (2).md",
          "2024-06-13-10-00-Standup (4).md"] := by
  refine ⟨by decide, (c5_no_overwrite
    ["2024-06-13-10-00-Standup.md", "2024-06-13-10-00-Standup (2).md",
      "2024-06-13-10-00-Standup (4).md"] "2024-06-13-10-00-Standup" ".md"
    ⟨1, by decide, by decide, by decide⟩).2.1⟩

/-! ## Theorems about the orchestrator -/

/-- C10: in normal mode one discovery step is a single listing request
with the limit clamped from the wrapper's default 100 down to the provider
maximum 50 and no pagination, so at most 50 candidate summaries come back
regardless of how many meetings the lookback window holds. -/
theorem c10_discovery_single_page (provider : List Summary) :
    discoverCandidates provider = provider.take 50 ∧
    (discoverCandidates provider).length ≤ 50 ∧
    get_recent_meetings provider 100 = (provider.take 50, 1) ∧
    get_recent_transcripts provider 100 0 = provider.take (min 100 50) := by
  have h1 : get_recent_transcripts provider 100 0 = provider.take 50 := by
    simp [get_recent_transcripts]
  refine ⟨?_, ?_, ?_, ?_⟩
  · simp [discoverCandidates, get_recent_meetings, h1]
  · simp [discoverCandidates, get_recent_meetings, h1]
  · simp [get_recent_meetings, h1]
  · rw [h1]; norm_num

/-- C6 counterexample: five candidates where meeting `"m3"`'s render step
raises inside `create_meeting_note`; the orchestrator still marks the
other four and continues, but its aggregate error count is 0, not 1 — the
failure is swallowed by `create_meeting_note` returning `None`, so the
run's counts report no error at all. -/
theorem c6_counterexample :
    c6runSwallowed.error_count = 0 ∧
    ¬ c6runSwallowed.error_count = 1 ∧
    c6runSwallowed.processed_count = 4 ∧
    (load_state c6runSwallowed.ledger).processed_meetings = ["m1", "m2", "m4", "m5"] := by
  decide

/-- C6 (amended): per-meeting failures are isolated — with five candidates
and `"m3"` failing, the other four are still marked processed and the
batch continues.  When the render failure is swallowed inside
`create_meeting_note` (the composed behaviour), `"m3"` is silently skipped
without being marked and zero errors are reported; only when the exception
escapes the note-creation call does the orchestrator count exactly one
error. -/
theorem c6_batch_isolation :
    (load_state c6runSwallowed.ledger).processed_meetings = ["m1", "m2", "m4", "m5"] ∧
    c6runSwallowed.processed_count = 4 ∧
    c6runSwallowed.error_count = 0 ∧
    c6runSwallowed.skipped_count = 0 ∧
    Event.noteAttempt "m3" ∈ c6runSwallowed.trace ∧
    Event.marked "m3" ∉ c6runSwallowed.trace ∧
    c6runEscaping.error_count = 1 ∧
    c6runEscaping.processed_count = 4 ∧
    (load_state c6runEscaping.ledger).processed_meetings = ["m1", "m2", "m4", "m5"] ∧
    Event.marked "m3" ∉ c6runEscaping.trace := by
  decide

/-- Test-mode discovery only fetches ids the ledger does not already hold,
every queued meeting came from such a fetch, and the phase emits only
fetch events. -/
theorem discoverTest_spec (ledger : LedgerFile) (fetchB : String → FetchOutcome) :
    ∀ ids : List String,
      (∀ i, Event.fetchDetail i ∈ (discoverTest ledger fetchB ids).trace →
        is_processed ledger i = false) ∧
      (∀ m ∈ (discoverTest ledger fetchB ids).meetings,
        ∃ j, fetchB j = FetchOutcome.ret (some m) ∧ is_processed ledger j = false) ∧
      (∀ e ∈ (discoverTest ledger fetchB ids).trace, ∃ j, e = Event.fetchDetail j) := by
  intro ids
  induction ids with
  | nil => refine ⟨?_, ?_, ?_⟩ <;> simp [discoverTest]
  | cons id rest ih =>
    obtain ⟨ih1, ih2, ih3⟩ := ih
    by_cases hp : is_processed ledger id = true
    · have hres : discoverTest ledger fetchB (id :: rest)
          = discoverTest ledger fetchB rest := by
        simp [discoverTest, hp]
      rw [hres]
      exact ⟨ih1, ih2, ih3⟩
    · have hp' : is_processed ledger id = false := by simpa using hp
      cases hf : fetchB id with
      | exc =>
        simp only [discoverTest, if_neg hp, hf]
        refine ⟨?_, ?_, ?_⟩
        · intro i hi
          rcases List.mem_cons.mp hi with he | ht
          · injection he with h; subst h; exact hp'
          · exact ih1 i ht
        · intro m hm
          exact ih2 m hm
        · intro e he
          rcases List.mem_cons.mp he with he' | ht
          · exact ⟨id, he'⟩
          · exact ih3 e ht
      | ret om =>
        cases om with
        | none =>
          simp only [discoverTest, if_neg hp, hf]
          refine ⟨?_, ?_, ?_⟩
          · intro i hi
            rcases List.mem_cons.mp hi with he | ht
            · injection he with h; subst h; exact hp'
            · exact ih1 i ht
          · intro m hm
            exact ih2 m hm
          · intro e he
            rcases List.mem_cons.mp he with he' | ht
            · exact ⟨id, he'⟩
            · exact ih3 e ht
        | some m =>
          simp only [discoverTest, if_neg hp, hf]
          refine ⟨?_, ?_, ?_⟩
          · intro i hi
            rcases List.mem_cons.mp hi with he | ht
            · injection he with h; subst h; exact hp'
            · exact ih1 i ht
          · intro m' hm'
            rcases List.mem_cons.mp hm' with he | ht
            · subst he; exact ⟨id, hf, hp'⟩
            · exact ih2 m' ht
          · intro e he
            rcases List.mem_cons.mp he with he' | ht
            · exact ⟨id, he'⟩
            · exact ih3 e ht

/-- Normal-mode discovery only fetches truthy summary ids the ledger does
not already hold, every queued meeting came from such a fetch, and the
phase emits only fetch events. -/
theorem discoverNormal_spec (ledger : LedgerFile) (fetchB : String → FetchOutcome) :
    ∀ summaries : List Summary,
      (∀ i, Event.fetchDetail i ∈ (discoverNormal ledger fetchB summaries).trace →
        is_processed ledger i = false) ∧
      (∀ m ∈ (discoverNormal ledger fetchB summaries).meetings,
        ∃ j, fetchB j = FetchOutcome.ret (some m) ∧ is_processed ledger j = false) ∧
      (∀ e ∈ (discoverNormal ledger fetchB summaries).trace,
        ∃ j, e = Event.fetchDetail j) := by
  intro summaries
  induction summaries with
  | nil => refine ⟨?_, ?_, ?_⟩ <;> simp [discoverNormal]
  | cons s rest ih =>
    obtain ⟨ih1, ih2, ih3⟩ := ih
    cases hs : truthyStr s.sid with
    | none =>
      have hres : discoverNormal ledger fetchB (s :: rest)
          = discoverNormal ledger fetchB rest := by
        simp [discoverNormal, hs]
      rw [hres]
      exact ⟨ih1, ih2, ih3⟩
    | some i =>
      by_cases hp : is_processed ledger i = true
      · have hres : discoverNormal ledger fetchB (s :: rest)
            = discoverNormal ledger fetchB rest := by
          simp [discoverNormal, hs, hp]
        rw [hres]
        exact ⟨ih1, ih2, ih3⟩
      · have hp' : is_processed ledger i = false := by simpa using hp
        cases hf : fetchB i with
        | exc =>
          simp only [discoverNormal, hs, if_neg hp, hf]
          refine ⟨?_, ?_, ?_⟩
          · intro i' hi
            rcases List.mem_cons.mp hi with he | ht
            · injection he with h; subst h; exact hp'
            · exact ih1 i' ht
          · intro m hm
            exact ih2 m hm
          · intro e he
            rcases List.mem_cons.mp he with he' | ht
            · exact ⟨i, he'⟩
            · exact ih3 e ht
        | ret om =>
          cases om with
          | none =>
            simp only [discoverNormal, hs, if_neg hp, hf]
            refine ⟨?_, ?_, ?_⟩
            · intro i' hi
              rcases List.mem_cons.mp hi with he | ht
              · injection he with h; subst h; exact hp'
              · exact ih1 i' ht
            · intro m hm
              exact ih2 m hm
            · intro e he
              rcases List.mem_cons.mp he with he' | ht
              · exact ⟨i, he'⟩
              · exact ih3 e ht
          | some m =>
            simp only [discoverNormal, hs, if_neg hp, hf]
            refine ⟨?_, ?_, ?_⟩
            · intro i' hi
              rcases List.mem_cons.mp hi with he | ht
              · injection he with h; subst h; exact hp'
              · exact ih1 i' ht
            · intro m' hm'
              rcases List.mem_cons.mp hm' with he | ht
              · subst he; exact ⟨i, hf, hp'⟩
              · exact ih2 m' ht
            · intro e he
              rcases List.mem_cons.mp he with he' | ht
              · exact ⟨i, he'⟩
              · exact ih3 e ht

/-- Every event of the persist phase concerns the truthy id of one of the
queued meetings, and none of them is a fetch event. -/
theorem persistLoop_trace_spec (noteB : Meeting → NoteOutcome) (now : String) :
    ∀ (ms : List Meeting) (led : LedgerFile),
      ∀ e ∈ (persistLoop noteB now ms led).trace,
        ∃ m ∈ ms, ∃ i, truthyStr m.mid = some i ∧
          (e = Event.noteAttempt i ∨ (∃ p, e = Event.noteWritten i p) ∨
            e = Event.marked i) := by
  intro ms
  induction ms with
  | nil => intro led e he; simp [persistLoop] at he
  | cons m rest ih =>
    intro led e he
    cases ht : truthyStr m.mid with
    | none =>
      rw [show persistLoop noteB now (m :: rest) led = persistLoop noteB now rest led by
        simp [persistLoop, ht]] at he
      obtain ⟨m', hm', hrest⟩ := ih led e he
      exact ⟨m', List.mem_cons_of_mem m hm', hrest⟩
    | some i =>
      cases hn : noteB m with
      | exc =>
        simp only [persistLoop, ht, hn] at he
        rcases List.mem_cons.mp he with he' | hrest
        · exact ⟨m, List.mem_cons_self m rest, i, ht, Or.inl he'⟩
        · obtain ⟨m', hm', h'⟩ := ih led e hrest
          exact ⟨m', List.mem_cons_of_mem m hm', h'⟩
      | ret op =>
        cases op with
        | none =>
          simp only [persistLoop, ht, hn] at he
          rcases List.mem_cons.mp he with he' | hrest
          · exact ⟨m, List.mem_cons_self m rest, i, ht, Or.inl he'⟩
          · obtain ⟨m', hm', h'⟩ := ih led e hrest
            exact ⟨m', List.mem_cons_of_mem m hm', h'⟩
        | some path =>
          simp only [persistLoop, ht, hn] at he
          rcases List.mem_cons.mp he with he1 | he'
          · exact ⟨m, List.mem_cons_self m rest, i, ht, Or.inl he1⟩
          rcases List.mem_cons.mp he' with he2 | he''
          · exact ⟨m, List.mem_cons_self m rest, i, ht, Or.inr (Or.inl ⟨path, he2⟩)⟩
          rcases List.mem_cons.mp he'' with he3 | hrest
          · exact ⟨m, List.mem_cons_self m rest, i, ht, Or.inr (Or.inr he3)⟩
          · obtain ⟨m', hm', h'⟩ := ih (mark_processed now led i) e hrest
            exact ⟨m', List.mem_cons_of_mem m hm', h'⟩

/-- No event about an initially processed id can come out of a run whose
discovery phase satisfies the discovery invariants. -/
theorem run_skips_processed (ledger0 : LedgerFile) (fetchB : String → FetchOutcome)
    (noteB : Meeting → NoteOutcome) (now : String) (id : String) (disc : DiscResult)
    (hcons : ∀ j m, fetchB j = FetchOutcome.ret (some m) → m.mid = some j)
    (hproc : is_processed ledger0 id = true)
    (hd1 : ∀ i, Event.fetchDetail i ∈ disc.trace → is_processed ledger0 i = false)
    (hd2 : ∀ m ∈ disc.meetings,
      ∃ j, fetchB j = FetchOutcome.ret (some m) ∧ is_processed ledger0 j = false)
    (hd3 : ∀ e ∈ disc.trace, ∃ j, e = Event.fetchDetail j) :
    Event.fetchDetail id ∉
      disc.trace ++ (persistLoop noteB now disc.meetings ledger0).trace ∧
    Event.noteAttempt id ∉
      disc.trace ++ (persistLoop noteB now disc.meetings ledger0).trace ∧
    (∀ p, Event.noteWritten id p ∉
      disc.trace ++ (persistLoop noteB now disc.meetings ledger0).trace) ∧
    Event.marked id ∉
      disc.trace ++ (persistLoop noteB now disc.meetings ledger0).trace := by
  have hqueue : ∀ m ∈ disc.meetings, ∀ i, truthyStr m.mid = some i →
      is_processed ledger0 i = false := by
    intro m hm i hti
    obtain ⟨j, hfj, hpj⟩ := hd2 m hm
    have hmid := hcons j m hfj
    rw [hmid] at hti
    by_cases hj : j = ""
    · simp [truthyStr, hj] at hti
    · simp only [truthyStr, if_neg hj] at hti
      injection hti with h
      rw [← h]
      exact hpj
  have hper : ∀ e ∈ (persistLoop noteB now disc.meetings ledger0).trace,
      ∃ i, is_processed ledger0 i = false ∧
        (e = Event.noteAttempt i ∨ (∃ p, e = Event.noteWritten i p) ∨
          e = Event.marked i) := by
    intro e he
    obtain ⟨m, hm, i, hti, hcase⟩ := persistLoop_trace_spec noteB now disc.meetings ledger0 e he
    exact ⟨i, hqueue m hm i hti, hcase⟩
  refine ⟨?_, ?_, ?_, ?_⟩
  · intro h
    rcases List.mem_append.mp h with h1 | h2
    · have hf := hd1 id h1
      rw [hproc] at hf
      exact absurd hf (by simp)
    · obtain ⟨i, _, hcase⟩ := hper _ h2
      rcases hcase with h' | ⟨p, h'⟩ | h' <;> exact Event.noConfusion h'
  · intro h
    rcases List.mem_append.mp h with h1 | h2
    · obtain ⟨j, he⟩ := hd3 _ h1
      exact Event.noConfusion he
    · obtain ⟨i, hpi, hcase⟩ := hper _ h2
      rcases hcase with h' | ⟨p, h'⟩ | h'
      · injection h' with hid
        rw [hid] at hproc
        rw [hproc] at hpi
        exact absurd hpi (by simp)
      · exact Event.noConfusion h'
      · exact Event.noConfusion h'
  · intro p h
    rcases List.mem_append.mp h with h1 | h2
    · obtain ⟨j, he⟩ := hd3 _ h1
      exact Event.noConfusion he
    · obtain ⟨i, hpi, hcase⟩ := hper _ h2
      rcases hcase with h' | ⟨q, h'⟩ | h'
      · exact Event.noConfusion h'
      · injection h' with hid hpath
        rw [hid] at hproc
        rw [hproc] at hpi
        exact absurd hpi (by simp)
      · exact Event.noConfusion h'
  · intro h
    rcases List.mem_append.mp h with h1 | h2
    · obtain ⟨j, he⟩ := hd3 _ h1
      exact Event.noConfusion he
    · obtain ⟨i, hpi, hcase⟩ := hper _ h2
      rcases hcase with h' | ⟨p, h'⟩ | h'
      · exact Event.noConfusion h'
      · exact Event.noConfusion h'
      · injection h' with hid
        rw [hid] at hproc
        rw [hproc] at hpi
        exact absurd hpi (by simp)

/-- C2: in both normal discovery mode and targeted/test mode, a candidate
id that the ledger already holds is never fetched and never gets a note:
the run's trace has no fetch, note-attempt, note-written or marked event
for it.  (The side condition `hcons` says the provider answers a fetch for
id j with a payload whose `'id'` field is j, which is how the real API
behaves.) -/
theorem c2_processed_never_refetched (ledger0 : LedgerFile) (provider : List Summary)
    (fetchB : String → FetchOutcome) (noteB : Meeting → NoteOutcome)
    (meeting_ids : Option (List String)) (now : String) (id : String)
    (hcons : ∀ j m, fetchB j = FetchOutcome.ret (some m) → m.mid = some j)
    (hproc : is_processed ledger0 id = true) :
    Event.fetchDetail id ∉
      (process_meetings ledger0 provider fetchB noteB meeting_ids now).trace ∧
    Event.noteAttempt id ∉
      (process_meetings ledger0 provider fetchB noteB meeting_ids now).trace ∧
    (∀ p, Event.noteWritten id p ∉
      (process_meetings ledger0 provider fetchB noteB meeting_ids now).trace) ∧
    Event.marked id ∉
      (process_meetings ledger0 provider fetchB noteB meeting_ids now).trace := by
  rcases meeting_ids with _ | ids
  · have hd := discoverNormal_spec ledger0 fetchB (discoverCandidates provider)
    have hmain := run_skips_processed ledger0 fetchB noteB now id _
      hcons hproc hd.1 hd.2.1 hd.2.2
    simpa [process_meetings] using hmain
  · cases ids with
    | nil =>
      have hd := discoverNormal_spec ledger0 fetchB (discoverCandidates provider)
      have hmain := run_skips_processed ledger0 fetchB noteB now id _
        hcons hproc hd.1 hd.2.1 hd.2.2
      simpa [process_meetings] using hmain
    | cons a rest =>
      have hd := discoverTest_spec ledger0 fetchB (a :: rest)
      have hmain := run_skips_processed ledger0 fetchB noteB now id _
        hcons hproc hd.1 hd.2.1 hd.2.2
      simpa [process_meetings] using hmain

/-- C2 witness: with a ledger already holding `"m9"` and a targeted run
over `["m9", "m1"]`, the run's trace holds no event at all about `"m9"`. -/
theorem c2_processed_never_refetched_witness :
    Event.fetchDetail "m9" ∉
      (process_meetings
        (LedgerFile.valid
          { processed_meetings := ["m9"], last_sync := none, metadata := [] })
        [] c6fetch (fun _ => NoteOutcome.ret (some "p"))
        (some ["m9", "m1"]) "T").trace ∧
    Event.marked "m9" ∉
      (process_meetings
        (LedgerFile.valid
          { processed_meetings := ["m9"], last_sync := none, metadata := [] })
        [] c6fetch (fun _ => NoteOutcome.ret (some "p"))
        (some ["m9", "m1"]) "T").trace := by
  have h := c2_processed_never_refetched
    (LedgerFile.valid { processed_meetings := ["m9"], last_sync := none, metadata := [] })
    [] c6fetch (fun _ => NoteOutcome.ret (some "p")) (some ["m9", "m1"]) "T" "m9"
    (by intro j m hf; injection hf with h1; injection h1 with h2; rw [← h2])
    (by decide)
  exact ⟨h.1, h.2.2.2⟩

/-- A trace without marked events is trivially write-before-mark. -/
theorem marksAfterWrites_of_no_marked (ts : List Event)
    (h : ∀ e ∈ ts, ∃ j, e = Event.fetchDetail j) : marksAfterWrites ts := by
  intro i id hi
  obtain ⟨j, hj⟩ := h _ (List.getElem?_mem hi)
  exact Event.noConfusion hj

/-- Write-before-mark is preserved by concatenation. -/
theorem marksAfterWrites_append (t1 t2 : List Event)
    (h1 : marksAfterWrites t1) (h2 : marksAfterWrites t2) :
    marksAfterWrites (t1 ++ t2) := by
  intro i id hi
  by_cases hlt : i < t1.length
  · rw [List.getElem?_append_left hlt] at hi
    obtain ⟨p, hp⟩ := h1 i id hi
    refine ⟨p, ?_⟩
    rw [List.take_append_of_le_length (by omega)]
    exact hp
  · push_neg at hlt
    obtain ⟨k, rfl⟩ : ∃ k, i = t1.length + k := ⟨i - t1.length, by omega⟩
    rw [List.getElem?_append_right (by omega)] at hi
    simp only [Nat.add_sub_cancel_left] at hi
    obtain ⟨p, hp⟩ := h2 k id hi
    refine ⟨p, ?_⟩
    rw [List.take_append]
    exact List.mem_append_right _ hp

/-- Adding a non-marked event at the front preserves write-before-mark. -/
theorem marksAfterWrites_cons (e : Event) (ts : List Event)
    (he : ∀ id, e ≠ Event.marked id) (h : marksAfterWrites ts) :
    marksAfterWrites (e :: ts) := by
  intro i id hi
  cases i with
  | zero =>
    simp only [List.getElem?_cons_zero, Option.some.injEq] at hi
    exact absurd hi (he id)
  | succ n =>
    simp only [List.getElem?_cons_succ] at hi
    obtain ⟨p, hp⟩ := h n id hi
    exact ⟨p, by rw [List.take_succ_cons]; exact List.mem_cons_of_mem _ hp⟩

/-- The attempt/write/mark block of one successfully persisted meeting
preserves write-before-mark. -/
theorem marksAfterWrites_block (i : String) (p : String) (ts : List Event)
    (h : marksAfterWrites ts) :
    marksAfterWrites
      (Event.noteAttempt i :: Event.noteWritten i p :: Event.marked i :: ts) := by
  intro k id hk
  match k with
  | 0 => simp at hk
  | 1 => simp at hk
  | 2 =>
    simp only [List.getElem?_cons_succ, List.getElem?_cons_zero,
      Option.some.injEq, Event.marked.injEq] at hk
    subst hk
    exact ⟨p, by simp⟩
  | n + 3 =>
    simp only [List.getElem?_cons_succ] at hk
    obtain ⟨q, hq⟩ := h n id hk
    refine ⟨q, ?_⟩
    rw [List.take_succ_cons, List.take_succ_cons, List.take_succ_cons]
    exact List.mem_cons_of_mem _ (List.mem_cons_of_mem _ (List.mem_cons_of_mem _ hq))

/-- The persist phase only emits a `marked` event strictly after the
successful `noteWritten` event of the same meeting. -/
theorem persistLoop_marksAfterWrites (noteB : Meeting → NoteOutcome) (now : String) :
    ∀ (ms : List Meeting) (led : LedgerFile),
      marksAfterWrites (persistLoop noteB now ms led).trace := by
  intro ms
  induction ms with
  | nil =>
    intro led
    intro i id hi
    simp [persistLoop] at hi
  | cons m rest ih =>
    intro led
    cases ht : truthyStr m.mid with
    | none =>
      rw [show persistLoop noteB now (m :: rest) led = persistLoop noteB now rest led by
        simp [persistLoop, ht]]
      exact ih led
    | some i =>
      cases hn : noteB m with
      | exc =>
        have hres : (persistLoop noteB now (m :: rest) led).trace
            = Event.noteAttempt i :: (persistLoop noteB now rest led).trace := by
          simp [persistLoop, ht, hn]
        rw [hres]
        exact marksAfterWrites_cons _ _ (fun id h => Event.noConfusion h) (ih led)
      | ret op =>
        cases op with
        | none =>
          have hres : (persistLoop noteB now (m :: rest) led).trace
              = Event.noteAttempt i :: (persistLoop noteB now rest led).trace := by
            simp [persistLoop, ht, hn]
          rw [hres]
          exact marksAfterWrites_cons _ _ (fun id h => Event.noConfusion h) (ih led)
        | some path =>
          have hres : (persistLoop noteB now (m :: rest) led).trace
              = Event.noteAttempt i :: Event.noteWritten i path :: Event.marked i ::
                (persistLoop noteB now rest (mark_processed now led i)).trace := by
            simp [persistLoop, ht, hn]
          rw [hres]
          exact marksAfterWrites_block i path _ (ih (mark_processed now led i))

/-- C4: within every run, whatever the mode, the collaborators' behaviour
and the initial ledger, a meeting is marked processed only strictly after
its note write completed successfully: wherever the trace holds
`marked id`, an earlier position holds `noteWritten id path` — the event
that `create_meeting_note` returned a (truthy) location.  In particular no
meeting is ever marked without a successful note write. -/
theorem c4_mark_only_after_write (ledger0 : LedgerFile) (provider : List Summary)
    (fetchB : String → FetchOutcome) (noteB : Meeting → NoteOutcome)
    (meeting_ids : Option (List String)) (now : String) :
    ∀ i id,
      (process_meetings ledger0 provider fetchB noteB meeting_ids now).trace[i]?
        = some (Event.marked id) →
      ∃ p, Event.noteWritten id p ∈
        (process_meetings ledger0 provider fetchB noteB meeting_ids now).trace.take i := by
  have key : marksAfterWrites
      (process_meetings ledger0 provider fetchB noteB meeting_ids now).trace := by
    rcases meeting_ids with _ | ids
    · have hd := (discoverNormal_spec ledger0 fetchB (discoverCandidates provider)).2.2
      have h := marksAfterWrites_append _ _
        (marksAfterWrites_of_no_marked _ hd)
        (persistLoop_marksAfterWrites noteB now
          (discoverNormal ledger0 fetchB (discoverCandidates provider)).meetings ledger0)
      simpa [process_meetings] using h
    · cases ids with
      | nil =>
        have hd := (discoverNormal_spec ledger0 fetchB (discoverCandidates provider)).2.2
        have h := marksAfterWrites_append _ _
          (marksAfterWrites_of_no_marked _ hd)
          (persistLoop_marksAfterWrites noteB now
            (discoverNormal ledger0 fetchB (discoverCandidates provider)).meetings ledger0)
        simpa [process_meetings] using h
      | cons a rest =>
        have hd := (discoverTest_spec ledger0 fetchB (a :: rest)).2.2
        have h := marksAfterWrites_append _ _
          (marksAfterWrites_of_no_marked _ hd)
          (persistLoop_marksAfterWrites noteB now
            (discoverTest ledger0 fetchB (a :: rest)).meetings ledger0)
        simpa [process_meetings] using h
  exact key

/-- C4 witness: a one-meeting run whose note write succeeds; the `marked`
event sits at index 3 of the trace and the matching `noteWritten` event
indeed occurs among the first three events. -/
theorem c4_mark_only_after_write_witness :
    ∃ p, Event.noteWritten "m1" p ∈
      ((process_meetings (LedgerFile.valid emptyStateData) [] c6fetch
        (fun _ => NoteOutcome.ret (some "p")) (some ["m1"]) "T").trace).take 3 :=
  c4_mark_only_after_write (LedgerFile.valid emptyStateData) [] c6fetch
    (fun _ => NoteOutcome.ret (some "p")) (some ["m1"]) "T" 3 "m1" (by decide)
